import Mathlib

/-!
Verification of the finetune repository's input pipeline and base model
against its specification.

The development shallowly embeds the relevant Python functions of
`src/finetune/input_pipeline.py` and `src/finetune/base.py` as executable
Lean definitions and proves the specified properties about them.

Modelling conventions:
* NumPy `int32`/`float32` scalars hold only small non-negative values here
  (token ids, 0/1 mask entries, position indices), so they are modelled as
  `Nat`; no arithmetic in the modelled code can overflow 32 bits for the
  configurations the pipeline accepts.
* A NumPy operation that raises (e.g. a failed broadcast during slice
  assignment) is modelled by returning `none` / `Except.error`.
* Python `int(math.ceil(a / b))` on non-negative integers `a`, `b > 0` is
  modelled by the exact ceiling division `(a + b - 1) / b`, and Python
  `int(a / b)` by floor division: in the ranges the program uses (dataset
  sizes, batch sizes, validation sizes) the float round trip is exact.
-/

namespace Finetune

/-- `EncodedOutput` as consumed by `BasePipeline._array_format`
(src/finetune/input_pipeline.py): the ordered token-id sequence produced by
the encoder together with optional per-token labels. -/
structure EncodedOutput where
  token_ids : List Nat
  labels : Option (List String) := none
deriving Repr, DecidableEq

/-- Result record of `_array_format`: channel 0 of `x` (token ids),
channel 1 of `x` (position ids), the loss mask (float 0.0/1.0 entries
modelled as the naturals 0/1) and the optional label array. -/
structure ArrayEncodedOutput where
  x0 : List Nat
  x1 : List Nat
  mask : List Nat
  labels_arr : Option (List String)
deriving Repr, DecidableEq

/-- NumPy semantics of `x = np.zeros(len_); x[:hi] = src` for a 1-D array:
the assignment writes `src` into the slice `[0, min hi len_)` and raises a
`ValueError` (modelled as `none`) unless `src` matches the slice length or
has length 1 (broadcast). -/
def npSliceAssignZeros (len_ hi : Nat) (src : List Nat) : Option (List Nat) :=
  let sliceLen := min hi len_
  if src.length = sliceLen then
    some ((List.range len_).map (fun i => if i < sliceLen then src.getD i 0 else 0))
  else if src.length = 1 then
    some ((List.range len_).map (fun i => if i < sliceLen then src.headD 0 else 0))
  else none

/-- NumPy semantics of `a = np.empty(len_); a.fill(fill); a[:hi] = src`
(used for the label array of `_array_format`). -/
def npSliceAssignFill (len_ hi : Nat) (fill : String) (src : List String) :
    Option (List String) :=
  let sliceLen := min hi len_
  if src.length = sliceLen then
    some ((List.range len_).map (fun i => if i < sliceLen then src.getD i fill else fill))
  else if src.length = 1 then
    some ((List.range len_).map (fun i => if i < sliceLen then src.headD fill else fill))
  else none

/-- `mask = np.zeros(max_length); mask[1:seq_length] = 1` from
`_array_format` (a scalar slice assignment never fails to broadcast). -/
def maskArray (max_length seq_length : Nat) : List Nat :=
  (List.range max_length).map (fun i => if 1 ≤ i ∧ i < min seq_length max_length then 1 else 0)

/-- `x[:, 1] = np.arange(vocab_size, vocab_size + max_length)` from
`_array_format`: the positional-embedding channel. -/
def posArray (max_length vocab_size : Nat) : List Nat :=
  (List.range max_length).map (fun i => vocab_size + i)

/-- `BasePipeline._array_format` (src/finetune/input_pipeline.py lines
34-66), with the two channels of the `[max_length, 2]` array `x` modelled
as the two lists `x0` and `x1`.  The statements execute in source order:
the token-channel slice assignment `x[:seq_length, 0] = token_ids` comes
first, then the mask assignment, then the label-array handling, then the
(total) position-channel assignment; the first NumPy error aborts the call
(`none`).  Python truthiness: `if encoded_output.labels:` skips the label
slice assignment when the label list is empty. -/
def array_format (max_length vocab_size : Nat) (enc : EncodedOutput)
    (pad_token : String) : Option ArrayEncodedOutput :=
  let seq_length := enc.token_ids.length
  match npSliceAssignZeros max_length seq_length enc.token_ids with
  | none => none
  | some x0 =>
    let mask := maskArray max_length seq_length
    match enc.labels with
    | none => some ⟨x0, posArray max_length vocab_size, mask, none⟩
    | some ls =>
      if ls = [] then
        some ⟨x0, posArray max_length vocab_size, mask,
              some (List.replicate max_length pad_token)⟩
      else
        match npSliceAssignFill max_length seq_length pad_token ls with
        | none => none
        | some la => some ⟨x0, posArray max_length vocab_size, mask, some la⟩

/-- Helper: the successful evaluation of `array_format` on an input whose
sequence fits in `max_length` and whose labels (when present) are parallel
to the tokens. -/
theorem array_format_eq_of_le (max_length vocab_size : Nat) (enc : EncodedOutput)
    (pad_token : String) (h : enc.token_ids.length ≤ max_length)
    (hlab : ∀ ls, enc.labels = some ls → ls.length = enc.token_ids.length) :
    array_format max_length vocab_size enc pad_token =
      some ⟨(List.range max_length).map
              (fun i => if i < enc.token_ids.length then enc.token_ids.getD i 0 else 0),
            posArray max_length vocab_size,
            maskArray max_length enc.token_ids.length,
            enc.labels.map (fun ls =>
              (List.range max_length).map
                (fun i => if i < enc.token_ids.length then ls.getD i pad_token else pad_token))⟩ := by
  have hmin : min enc.token_ids.length max_length = enc.token_ids.length :=
    Nat.min_eq_left h
  unfold array_format npSliceAssignZeros
  simp only [hmin, if_pos rfl]
  cases hL : enc.labels with
  | none => simp
  | some ls =>
    have hlen : ls.length = enc.token_ids.length := hlab ls hL
    by_cases hnil : ls = []
    · subst hnil
      have h0 : enc.token_ids.length = 0 := by simpa using hlen.symm
      simp [h0, List.map_const']
    · simp only [if_neg hnil]
      unfold npSliceAssignFill
      simp [hmin, hlen]

/-- C1 counterexample: with `max_length = 3` and a five-token input, the
formatter does not truncate; the NumPy slice assignment
`x[:seq_length, 0] = token_ids` fails to broadcast shape (5,) into (3,),
so `_array_format` raises instead of returning arrays. -/
theorem array_format_no_truncation :
    array_format 3 40478 ⟨[5, 6, 7, 8, 9], none⟩ "<PAD>" = none := by decide

/-- C1 (amended): for every encoded input whose sequence length is at most
`max_length` (and whose labels, when present, are parallel to the tokens),
`_array_format` returns a token/position array of shape `[max_length, 2]`
(two channels, each of length `max_length`) and a mask of length exactly
`max_length`, with shorter inputs zero-padded on the token channel and on
the mask; an input longer than `max_length` is not truncated but raises
(see the counterexample). -/
theorem array_format_shape (max_length vocab_size : Nat) (enc : EncodedOutput)
    (pad_token : String) (h : enc.token_ids.length ≤ max_length)
    (hlab : ∀ ls, enc.labels = some ls → ls.length = enc.token_ids.length) :
    ∃ r, array_format max_length vocab_size enc pad_token = some r ∧
      r.x0.length = max_length ∧ r.x1.length = max_length ∧
      r.mask.length = max_length ∧
      (∀ i, i < enc.token_ids.length → r.x0.getD i 0 = enc.token_ids.getD i 0) ∧
      (∀ i, enc.token_ids.length ≤ i → r.x0.getD i 0 = 0) ∧
      (∀ i, enc.token_ids.length ≤ i → r.mask.getD i 0 = 0) := by
  refine ⟨_, array_format_eq_of_le max_length vocab_size enc pad_token h hlab, ?_, ?_, ?_, ?_, ?_, ?_⟩
  · simp
  · simp [posArray]
  · simp [maskArray]
  · intro i hi
    have hi' : i < max_length := lt_of_lt_of_le hi h
    simp [List.getD, List.getElem?_map, List.getElem?_range hi', hi]
  · intro i hi
    by_cases hi' : i < max_length
    · simp [List.getD, List.getElem?_map, List.getElem?_range hi', Nat.not_lt.mpr hi]
    · have hnone : (List.range max_length)[i]? = none :=
        List.getElem?_eq_none (by simpa using Nat.le_of_not_lt hi')
      simp [List.getD, List.getElem?_map, hnone]
  · intro i hi
    by_cases hi' : i < max_length
    · simp [maskArray, List.getD, List.getElem?_map, List.getElem?_range hi']
      omega
    · have hnone : (List.range max_length)[i]? = none :=
        List.getElem?_eq_none (by simpa using Nat.le_of_not_lt hi')
      simp [maskArray, List.getD, List.getElem?_map, hnone]

/-- Witness for C1's amended theorem at a concrete input. -/
theorem array_format_shape_witness :
    ∃ r, array_format 5 100 ⟨[10, 11, 12], none⟩ "<PAD>" = some r ∧
      r.x0.length = 5 ∧ r.x1.length = 5 ∧ r.mask.length = 5 ∧
      (∀ i, i < ([10, 11, 12] : List Nat).length → r.x0.getD i 0 = ([10, 11, 12] : List Nat).getD i 0) ∧
      (∀ i, ([10, 11, 12] : List Nat).length ≤ i → r.x0.getD i 0 = 0) ∧
      (∀ i, ([10, 11, 12] : List Nat).length ≤ i → r.mask.getD i 0 = 0) :=
  array_format_shape 5 100 ⟨[10, 11, 12], none⟩ "<PAD>" (by decide)
    (fun ls hls => Option.noConfusion hls)

/-- C5: for every formatted input with sequence length `L ≤ max_length`
(the only inputs `_array_format` formats; longer ones raise), the mask is 1
exactly at indices `1..L-1` and 0 at index 0 and at every index `≥ L`;
when `L ≤ 1` the mask is all zero. -/
theorem array_format_mask (max_length vocab_size : Nat) (enc : EncodedOutput)
    (pad_token : String) (h : enc.token_ids.length ≤ max_length)
    (hlab : ∀ ls, enc.labels = some ls → ls.length = enc.token_ids.length) :
    ∃ r, array_format max_length vocab_size enc pad_token = some r ∧
      r.mask = (List.range max_length).map
        (fun i => if 1 ≤ i ∧ i < enc.token_ids.length then 1 else 0) ∧
      r.mask.getD 0 0 = 0 ∧
      (∀ i, 1 ≤ i → i < enc.token_ids.length → r.mask.getD i 0 = 1) ∧
      (∀ i, enc.token_ids.length ≤ i → r.mask.getD i 0 = 0) ∧
      (enc.token_ids.length ≤ 1 → r.mask = List.replicate max_length 0) := by
  have hmask : maskArray max_length enc.token_ids.length =
      (List.range max_length).map
        (fun i => if 1 ≤ i ∧ i < enc.token_ids.length then 1 else 0) := by
    unfold maskArray
    refine List.map_congr_left (fun i hi => ?_)
    have hi' : i < max_length := by simpa using hi
    by_cases h1 : 1 ≤ i ∧ i < enc.token_ids.length
    · rw [if_pos ⟨h1.1, lt_of_lt_of_le h1.2 (Nat.le_min.mpr ⟨le_refl _, h⟩) |>.trans_le (le_refl _)⟩,
        if_pos h1]
    · have : ¬ (1 ≤ i ∧ i < min enc.token_ids.length max_length) := by
        rw [Nat.min_eq_left h]; exact h1
      rw [if_neg this, if_neg h1]
  refine ⟨_, array_format_eq_of_le max_length vocab_size enc pad_token h hlab,
    hmask, ?_, ?_, ?_, ?_⟩
  · rcases Nat.eq_zero_or_pos max_length with h0 | h0
    · simp [maskArray, h0, List.getD]
    · simp [hmask, List.getD, List.getElem?_map, List.getElem?_range h0]
  · intro i h1 hi
    have hi' : i < max_length := lt_of_lt_of_le hi h
    simp [hmask, List.getD, List.getElem?_map, List.getElem?_range hi', h1, hi]
  · intro i hi
    by_cases hi' : i < max_length
    · simp [hmask, List.getD, List.getElem?_map, List.getElem?_range hi']
      omega
    · have hnone : (List.range max_length)[i]? = none :=
        List.getElem?_eq_none (by simpa using Nat.le_of_not_lt hi')
      simp [hmask, List.getD, List.getElem?_map, hnone]
  · intro hL
    rw [hmask]
    have : ∀ i, (if 1 ≤ i ∧ i < enc.token_ids.length then (1 : Nat) else 0) = 0 := by
      intro i
      rw [if_neg]
      omega
    calc (List.range max_length).map
          (fun i => if 1 ≤ i ∧ i < enc.token_ids.length then 1 else 0)
        = (List.range max_length).map (fun _ => (0 : Nat)) :=
          List.map_congr_left (fun i _ => this i)
      _ = List.replicate max_length 0 := by simp [List.map_const']

/-- Witness for C5 at a concrete input (sequence length 3, `max_length` 6). -/
theorem array_format_mask_witness :
    ∃ r, array_format 6 40478 ⟨[7, 8, 9], none⟩ "<PAD>" = some r ∧
      r.mask = (List.range 6).map
        (fun i => if 1 ≤ i ∧ i < ([7, 8, 9] : List Nat).length then 1 else 0) ∧
      r.mask.getD 0 0 = 0 ∧
      (∀ i, 1 ≤ i → i < ([7, 8, 9] : List Nat).length → r.mask.getD i 0 = 1) ∧
      (∀ i, ([7, 8, 9] : List Nat).length ≤ i → r.mask.getD i 0 = 0) ∧
      (([7, 8, 9] : List Nat).length ≤ 1 → r.mask = List.replicate 6 0) :=
  array_format_mask 6 40478 ⟨[7, 8, 9], none⟩ "<PAD>" (by decide)
    (fun ls hls => Option.noConfusion hls)

/-- C6: channel 1 of the formatted array (the position channel) is exactly
`[vocab_size, vocab_size + 1, ..., vocab_size + max_length - 1]` over the
full row of length `max_length`, independent of the token contents and of
the sequence length (the right-hand sides below do not mention the
input's tokens). -/
theorem array_format_positions (max_length vocab_size : Nat) (enc : EncodedOutput)
    (pad_token : String) (h : enc.token_ids.length ≤ max_length)
    (hlab : ∀ ls, enc.labels = some ls → ls.length = enc.token_ids.length) :
    ∃ r, array_format max_length vocab_size enc pad_token = some r ∧
      r.x1 = (List.range max_length).map (fun i => vocab_size + i) ∧
      r.x1.length = max_length ∧
      (∀ i, i < max_length → r.x1.getD i 0 = vocab_size + i) := by
  refine ⟨_, array_format_eq_of_le max_length vocab_size enc pad_token h hlab,
    rfl, by simp [posArray], ?_⟩
  intro i hi
  simp [posArray, List.getD, List.getElem?_map, List.getElem?_range hi]

/-- Witness for C6 at a concrete input. -/
theorem array_format_positions_witness :
    ∃ r, array_format 4 100 ⟨[3, 1], none⟩ "<PAD>" = some r ∧
      r.x1 = (List.range 4).map (fun i => 100 + i) ∧
      r.x1.length = 4 ∧
      (∀ i, i < 4 → r.x1.getD i 0 = 100 + i) :=
  array_format_positions 4 100 ⟨[3, 1], none⟩ "<PAD>" (by decide)
    (fun ls hls => Option.noConfusion hls)

/-- Python `list(range(0, stop, step))` for a positive `step`: the
multiples of `step` below `stop`, of which there are `⌈stop / step⌉`. -/
def pyRange (stop step : Nat) : List Nat :=
  (List.range ((stop + step - 1) / step)).map (fun k => k * step)

/-- The chunk slices produced by the `chunk_long_sequences` branch of
`BasePipeline._text_to_ids` (src/finetune/input_pipeline.py lines 166-189):
`chunk_size = max_length - 2`, `step_size = chunk_size // 3`, and one
yielded slice `encoded.token_ids[start : start + chunk_size]` per
`start in range(0, len(encoded.token_ids), step_size)`. -/
def text_to_ids_chunks (max_length : Nat) (token_ids : List Nat) : List (List Nat) :=
  let chunk_size := max_length - 2
  let step_size := chunk_size / 3
  (pyRange token_ids.length step_size).map
    (fun start => (token_ids.drop start).take chunk_size)

/-- The half-open index interval `[start, min (start + chunk_size) N)` of
token positions covered by each chunk of `_text_to_ids`. -/
def chunkIntervals (max_length N : Nat) : List (Nat × Nat) :=
  let chunk_size := max_length - 2
  let step_size := chunk_size / 3
  (pyRange N step_size).map (fun start => (start, min (start + chunk_size) N))

/-- Number of token positions shared by two half-open index intervals. -/
def chunkOverlap (a b : Nat × Nat) : Nat := min a.2 b.2 - max a.1 b.1

theorem lt_ceilDiv_iff (N S k : Nat) (hS : 1 ≤ S) :
    k < (N + S - 1) / S ↔ k * S < N := by
  rw [Nat.lt_iff_add_one_le, Nat.le_div_iff_mul_le hS, Nat.succ_mul]
  omega

theorem pyRange_length (stop step : Nat) :
    (pyRange stop step).length = (stop + step - 1) / step := by
  simp [pyRange]

theorem pyRange_getElem? (stop step k : Nat) (h : k < (stop + step - 1) / step) :
    (pyRange stop step)[k]? = some (k * step) := by
  simp [pyRange, List.getElem?_map, List.getElem?_range h]

theorem map_pyRange_getD {β : Type} (f : Nat → β) (stop step k : Nat) (d : β)
    (h : k < (stop + step - 1) / step) :
    (((pyRange stop step).map f).getD k d) = f (k * step) := by
  simp [List.getD, List.getElem?_map, pyRange_getElem? stop step k h]

/-- C2 counterexample: with `max_length = 8` (window `W = 6`, stride
`S = 2`) and a full encoding of `N = 9` tokens, `_text_to_ids` yields five
chunks covering `[0,6), [2,8), [4,9), [6,9), [8,9)`; chunks 2 and 3 are
consecutive, chunk 3 is not the last chunk, yet their overlap is 3 tokens,
not `W - S = 4`: more than one trailing chunk is truncated, so the
"except possibly the last chunk" proviso of the claim does not rescue it. -/
theorem text_to_ids_chunks_overlap_counterexample :
    chunkIntervals 8 9 = [(0, 6), (2, 8), (4, 9), (6, 9), (8, 9)] ∧
    text_to_ids_chunks 8 (List.range 9) =
      [[0, 1, 2, 3, 4, 5], [2, 3, 4, 5, 6, 7], [4, 5, 6, 7, 8], [6, 7, 8], [8]] ∧
    chunkOverlap ((chunkIntervals 8 9).getD 2 (0, 0))
        ((chunkIntervals 8 9).getD 3 (0, 0)) = 3 ∧
    (8 - 2) - (8 - 2) / 3 = 4 ∧
    3 + 1 < (chunkIntervals 8 9).length := by decide

/-- C2 (amended): with window `W = max_length - 2` and stride `S = W / 3`
(requiring `max_length ≥ 5` so that the Python `range` step is positive),
`_text_to_ids` yields exactly `len(range(0, N, S)) = ⌈N / S⌉` chunks; the
k-th chunk is `token_ids[k·S : k·S + W]`, covering positions
`[k·S, min (k·S + W) N)`; consecutive chunks k and k+1 overlap in exactly
`min (W - S) (N - (k+1)·S)` tokens, which equals `W - S` whenever chunk k
is untruncated (`k·S + W ≤ N`) — near the end of the sequence several
trailing chunks may be truncated, so earlier-than-last pairs can overlap
in fewer than `W - S` tokens; the chunks cover every position of `[0, N)`;
and every chunk has length at most `max_length - 2` (hence always formats
successfully). -/
theorem text_to_ids_chunks_spec (max_length N : Nat) (token_ids : List Nat)
    (hN : token_ids.length = N) (h5 : 5 ≤ max_length) :
    (text_to_ids_chunks max_length token_ids).length =
      (N + (max_length - 2) / 3 - 1) / ((max_length - 2) / 3) ∧
    (chunkIntervals max_length N).length =
      (text_to_ids_chunks max_length token_ids).length ∧
    (∀ k, k < (chunkIntervals max_length N).length →
      (chunkIntervals max_length N).getD k (0, 0) =
        (k * ((max_length - 2) / 3),
         min (k * ((max_length - 2) / 3) + (max_length - 2)) N)) ∧
    (∀ k, k < (text_to_ids_chunks max_length token_ids).length →
      (text_to_ids_chunks max_length token_ids).getD k [] =
        (token_ids.drop (k * ((max_length - 2) / 3))).take (max_length - 2)) ∧
    (∀ k, k + 1 < (chunkIntervals max_length N).length →
      chunkOverlap ((chunkIntervals max_length N).getD k (0, 0))
          ((chunkIntervals max_length N).getD (k + 1) (0, 0)) =
        min ((max_length - 2) - (max_length - 2) / 3)
            (N - (k + 1) * ((max_length - 2) / 3))) ∧
    (∀ k, k + 1 < (chunkIntervals max_length N).length →
      k * ((max_length - 2) / 3) + (max_length - 2) ≤ N →
      chunkOverlap ((chunkIntervals max_length N).getD k (0, 0))
          ((chunkIntervals max_length N).getD (k + 1) (0, 0)) =
        (max_length - 2) - (max_length - 2) / 3) ∧
    (∀ p, p < N → ∃ k, k < (chunkIntervals max_length N).length ∧
      ((chunkIntervals max_length N).getD k (0, 0)).1 ≤ p ∧
      p < ((chunkIntervals max_length N).getD k (0, 0)).2) ∧
    (∀ c ∈ text_to_ids_chunks max_length token_ids, c.length ≤ max_length - 2) := by
  have hW : 3 ≤ max_length - 2 := by omega
  have hS : 1 ≤ (max_length - 2) / 3 := Nat.one_le_div_iff (by omega) |>.mpr hW
  have hSW : (max_length - 2) / 3 ≤ max_length - 2 := Nat.div_le_self _ _
  have hlen : (text_to_ids_chunks max_length token_ids).length =
      (N + (max_length - 2) / 3 - 1) / ((max_length - 2) / 3) := by
    simp [text_to_ids_chunks, pyRange, hN]
  have hlenI : (chunkIntervals max_length N).length =
      (N + (max_length - 2) / 3 - 1) / ((max_length - 2) / 3) := by
    simp [chunkIntervals, pyRange]
  have hIget : ∀ k, k < (chunkIntervals max_length N).length →
      (chunkIntervals max_length N).getD k (0, 0) =
        (k * ((max_length - 2) / 3),
         min (k * ((max_length - 2) / 3) + (max_length - 2)) N) := by
    intro k hk
    rw [hlenI] at hk
    exact map_pyRange_getD _ N _ k (0, 0) hk
  refine ⟨hlen, hlenI.trans hlen.symm, hIget, ?_, ?_, ?_, ?_, ?_⟩
  · intro k hk
    rw [hlen] at hk
    unfold text_to_ids_chunks
    exact map_pyRange_getD _ token_ids.length _ k [] (by rw [hN]; exact hk)
  · intro k hk
    rw [hlenI] at hk
    have hk' : k < (chunkIntervals max_length N).length := by rw [hlenI]; omega
    have hk1 : k + 1 < (chunkIntervals max_length N).length := by rw [hlenI]; omega
    rw [hIget k hk', hIget (k + 1) hk1]
    have hbN : (k + 1) * ((max_length - 2) / 3) < N :=
      (lt_ceilDiv_iff N _ (k + 1) hS).mp hk
    have hb : (k + 1) * ((max_length - 2) / 3) =
        k * ((max_length - 2) / 3) + (max_length - 2) / 3 := Nat.succ_mul _ _
    unfold chunkOverlap
    simp only [hb] at hbN ⊢
    omega
  · intro k hk hfull
    have hk2 := hk
    rw [hlenI] at hk2
    have hbN : (k + 1) * ((max_length - 2) / 3) < N :=
      (lt_ceilDiv_iff N _ (k + 1) hS).mp hk2
    have hb : (k + 1) * ((max_length - 2) / 3) =
        k * ((max_length - 2) / 3) + (max_length - 2) / 3 := Nat.succ_mul _ _
    have := hIget k (by rw [hlenI] at hk ⊢; omega)
    rw [this, hIget (k + 1) hk]
    unfold chunkOverlap
    simp only [hb] at hbN ⊢
    omega
  · intro p hp
    refine ⟨p / ((max_length - 2) / 3), ?_, ?_, ?_⟩
    · rw [hlenI, lt_ceilDiv_iff N _ _ hS]
      calc p / ((max_length - 2) / 3) * ((max_length - 2) / 3) ≤ p :=
            Nat.div_mul_le_self _ _
        _ < N := hp
    · rw [hIget _ (by rw [hlenI, lt_ceilDiv_iff N _ _ hS]; exact lt_of_le_of_lt (Nat.div_mul_le_self _ _) hp)]
      exact Nat.div_mul_le_self _ _
    · rw [hIget _ (by rw [hlenI, lt_ceilDiv_iff N _ _ hS]; exact lt_of_le_of_lt (Nat.div_mul_le_self _ _) hp)]
      have hmod : p % ((max_length - 2) / 3) < (max_length - 2) / 3 :=
        Nat.mod_lt _ (by omega)
      have hdm : (max_length - 2) / 3 * (p / ((max_length - 2) / 3)) +
          p % ((max_length - 2) / 3) = p := Nat.div_add_mod p _
      have hcomm : p / ((max_length - 2) / 3) * ((max_length - 2) / 3) =
          (max_length - 2) / 3 * (p / ((max_length - 2) / 3)) := Nat.mul_comm _ _
      rw [hcomm]
      omega
  · intro c hc
    unfold text_to_ids_chunks at hc
    simp only [List.mem_map] at hc
    obtain ⟨s, _, rfl⟩ := hc
    simp only [List.length_take]
    exact min_le_left _ _

/-- Witness for C2's amended theorem at `max_length = 8`, a 9-token input. -/
theorem text_to_ids_chunks_spec_witness :
    (text_to_ids_chunks 8 (List.range 9)).length =
      (9 + (8 - 2) / 3 - 1) / ((8 - 2) / 3) ∧
    (chunkIntervals 8 9).length = (text_to_ids_chunks 8 (List.range 9)).length ∧
    (∀ k, k < (chunkIntervals 8 9).length →
      (chunkIntervals 8 9).getD k (0, 0) =
        (k * ((8 - 2) / 3), min (k * ((8 - 2) / 3) + (8 - 2)) 9)) ∧
    (∀ k, k < (text_to_ids_chunks 8 (List.range 9)).length →
      (text_to_ids_chunks 8 (List.range 9)).getD k [] =
        ((List.range 9).drop (k * ((8 - 2) / 3))).take (8 - 2)) ∧
    (∀ k, k + 1 < (chunkIntervals 8 9).length →
      chunkOverlap ((chunkIntervals 8 9).getD k (0, 0))
          ((chunkIntervals 8 9).getD (k + 1) (0, 0)) =
        min ((8 - 2) - (8 - 2) / 3) (9 - (k + 1) * ((8 - 2) / 3))) ∧
    (∀ k, k + 1 < (chunkIntervals 8 9).length →
      k * ((8 - 2) / 3) + (8 - 2) ≤ 9 →
      chunkOverlap ((chunkIntervals 8 9).getD k (0, 0))
          ((chunkIntervals 8 9).getD (k + 1) (0, 0)) =
        (8 - 2) - (8 - 2) / 3) ∧
    (∀ p, p < 9 → ∃ k, k < (chunkIntervals 8 9).length ∧
      ((chunkIntervals 8 9).getD k (0, 0)).1 ≤ p ∧
      p < ((chunkIntervals 8 9).getD k (0, 0)).2) ∧
    (∀ c ∈ text_to_ids_chunks 8 (List.range 9), c.length ≤ 8 - 2) :=
  text_to_ids_chunks_spec 8 9 (List.range 9) (by simp) (by norm_num)

/-- Python `sys.maxsize` on a 64-bit platform, used by
`validation_settings` as the effectively-infinite validation interval. -/
def sysMaxsize : Nat := 9223372036854775807

/-- `BaseModel.validation_settings` (src/finetune/base.py lines 213-238).
`int(0.05 * n_examples)` is modelled by `n_examples / 20` (for the sizes
the clamps make relevant the float product truncates to exactly that), and
`int(math.ceil(val_size / batch_size))` by ceiling division.  Python's
`4 * ... or sys.maxsize` yields `sys.maxsize` exactly when the product is
0. -/
def validation_settings (cfg_val_size cfg_val_interval : Option Nat)
    (n_examples batch_size : Nat) : Nat × Nat :=
  match cfg_val_size, cfg_val_interval with
  | some s, some i => (s, i)
  | _, _ =>
    let val_size :=
      match cfg_val_size with
      | none => if n_examples < 50 then 0 else min 100 (max 5 (n_examples / 20))
      | some s => s
    let val_interval :=
      match cfg_val_interval with
      | none =>
        let x := 4 * ((val_size + batch_size - 1) / batch_size)
        if x = 0 then sysMaxsize else x
      | some i => i
    (val_size, val_interval)

/-- C3: with neither `val_size` nor `val_interval` configured,
`validation_settings` returns `val_size = 0` for fewer than 50 examples
and otherwise `min 100 (max 5 ⌊n/20⌋)`, and returns
`val_interval = 4 ⌈val_size / batch_size⌉` when `val_size > 0` and the
effectively-infinite marker `sys.maxsize` when `val_size = 0`; in
particular 30 examples give `(0, maxsize)`, 1000 examples give validation
size 50, and an explicitly configured `val_size = 20` with batch size 10
gives interval 8. -/
theorem validation_settings_spec (n_examples batch_size : Nat)
    (hb : 1 ≤ batch_size) :
    (n_examples < 50 →
      validation_settings none none n_examples batch_size = (0, sysMaxsize)) ∧
    (50 ≤ n_examples →
      validation_settings none none n_examples batch_size =
        (min 100 (max 5 (n_examples / 20)),
         4 * ((min 100 (max 5 (n_examples / 20)) + batch_size - 1) / batch_size))) ∧
    validation_settings none none 30 batch_size = (0, sysMaxsize) ∧
    (validation_settings none none 1000 batch_size).1 = 50 ∧
    validation_settings (some 20) none n_examples 10 = (20, 8) := by
  have hzero : (batch_size - 1) / batch_size = 0 :=
    Nat.div_eq_of_lt (by omega)
  have hsmall : ∀ m, m < 50 →
      validation_settings none none m batch_size = (0, sysMaxsize) := by
    intro m hm
    unfold validation_settings
    simp [hm, hzero]
  have hbig : ∀ m, 50 ≤ m →
      validation_settings none none m batch_size =
        (min 100 (max 5 (m / 20)),
         4 * ((min 100 (max 5 (m / 20)) + batch_size - 1) / batch_size)) := by
    intro m hm
    have hv5 : 5 ≤ min 100 (max 5 (m / 20)) := le_min (by omega) (le_max_left _ _)
    have hpos : 1 ≤ (min 100 (max 5 (m / 20)) + batch_size - 1) / batch_size := by
      rw [Nat.one_le_div_iff (by omega)]
      omega
    unfold validation_settings
    simp only [Nat.not_lt.mpr hm, if_neg (by omega : ¬ m < 50)]
    have hx : 4 * ((min 100 (max 5 (m / 20)) + batch_size - 1) / batch_size) ≠ 0 := by
      omega
    simp [hx]
  refine ⟨hsmall n_examples, hbig n_examples, hsmall 30 (by norm_num), ?_, ?_⟩
  · rw [hbig 1000 (by norm_num)]
    norm_num
  · unfold validation_settings
    norm_num

/-- Witness for C3 at `n_examples = 1000`, `batch_size = 7`. -/
theorem validation_settings_spec_witness :
    (1000 < 50 → validation_settings none none 1000 7 = (0, sysMaxsize)) ∧
    (50 ≤ 1000 →
      validation_settings none none 1000 7 =
        (min 100 (max 5 (1000 / 20)),
         4 * ((min 100 (max 5 (1000 / 20)) + 7 - 1) / 7))) ∧
    validation_settings none none 30 7 = (0, sysMaxsize) ∧
    (validation_settings none none 1000 7).1 = 50 ∧
    validation_settings (some 20) none 1000 10 = (20, 8) :=
  validation_settings_spec 1000 7 (by norm_num)

/-- Per-epoch step count of `BaseModel.finetune` (src/finetune/base.py line
148): `int(math.ceil(math.ceil(dataset_size / batch_size)) / max(1,
len(visible_gpus)))` — the inner ceiling division is already an integer, so
the outer `math.ceil` is the identity, and the final `int(... / ...)`
truncates, i.e. floor-divides by the device count. -/
def steps_per_epoch (dataset_size batch_size num_gpus : Nat) : Nat :=
  ((dataset_size + batch_size - 1) / batch_size) / max 1 num_gpus

/-- Total training steps requested from the engine by `BaseModel.finetune`
(src/finetune/base.py line 149): `steps_per_epoch * n_epochs`. -/
def num_steps (dataset_size batch_size n_epochs num_gpus : Nat) : Nat :=
  steps_per_epoch dataset_size batch_size num_gpus * n_epochs

/-- The step count in the words of the claim: `ceil(ceil(dataset_size /
batch_size))` multiplied by `n_epochs`, then divided by the device count
(minimum one device). -/
def num_steps_claimed (dataset_size batch_size n_epochs num_gpus : Nat) : Nat :=
  ((dataset_size + batch_size - 1) / batch_size) * n_epochs / max 1 num_gpus

/-- C4 counterexample: with dataset size 10, batch size 1, 3 epochs and 3
devices, the code computes `int(10 / 3) * 3 = 9` steps, while the claim's
formula `10 * 3 / 3` gives 10 — the code floor-divides the per-epoch step
count by the device count before multiplying by the epoch count. -/
theorem num_steps_counterexample :
    num_steps 10 1 3 3 = 9 ∧ num_steps_claimed 10 1 3 3 = 10 ∧
    num_steps 10 1 3 3 ≠ num_steps_claimed 10 1 3 3 := by decide

/-- C4 (amended): the total number of training steps requested from the
engine equals `⌊⌈dataset_size / batch_size⌉ / max 1 num_gpus⌋ * n_epochs`
(the per-epoch count is floor-divided across devices first, then
multiplied by the epoch count); it never exceeds the claimed
`⌈dataset_size / batch_size⌉ * n_epochs / max 1 num_gpus`, and equals it
whenever at most one device is configured. -/
theorem num_steps_spec (dataset_size batch_size n_epochs num_gpus : Nat) :
    num_steps dataset_size batch_size n_epochs num_gpus =
      ((dataset_size + batch_size - 1) / batch_size / max 1 num_gpus) * n_epochs ∧
    num_steps dataset_size batch_size n_epochs num_gpus ≤
      num_steps_claimed dataset_size batch_size n_epochs num_gpus ∧
    (num_gpus ≤ 1 →
      num_steps dataset_size batch_size n_epochs num_gpus =
        num_steps_claimed dataset_size batch_size n_epochs num_gpus) := by
  refine ⟨rfl, ?_, ?_⟩
  · unfold num_steps num_steps_claimed steps_per_epoch
    rw [Nat.le_div_iff_mul_le (by omega : 0 < max 1 num_gpus)]
    calc ((dataset_size + batch_size - 1) / batch_size / max 1 num_gpus) * n_epochs *
          max 1 num_gpus
        = ((dataset_size + batch_size - 1) / batch_size / max 1 num_gpus) *
          max 1 num_gpus * n_epochs := by ring
      _ ≤ ((dataset_size + batch_size - 1) / batch_size) * n_epochs :=
          Nat.mul_le_mul_right _ (Nat.div_mul_le_self _ _)
  · intro hg
    have h1 : max 1 num_gpus = 1 := by omega
    unfold num_steps num_steps_claimed steps_per_epoch
    simp [h1]

/-- Witness for C4's amended theorem (the `num_gpus ≤ 1` hypothesis of the
last conjunct discharged at a concrete input). -/
theorem num_steps_spec_witness :
    (num_steps 10 4 3 1 = ((10 + 4 - 1) / 4 / max 1 1) * 3 ∧
     num_steps 10 4 3 1 ≤ num_steps_claimed 10 4 3 1 ∧
     (1 ≤ 1 → num_steps 10 4 3 1 = num_steps_claimed 10 4 3 1)) :=
  num_steps_spec 10 4 3 1

/-- Python `pattern in text` on strings, modelled on the character lists:
some suffix of `l` starts with `pat`. -/
def containsSublist {α : Type} [BEq α] (pat l : List α) : Bool :=
  (List.range (l.length + 1)).any fun i => pat.isPrefixOf (l.drop i)

/-- The `process_embeddings` variable transform defined inside
`BaseModel._initialize` (src/finetune/base.py lines 90-107).  Embedding
rows are an abstract type `α`; `interpolate_pos_embed`
(finetune/utils.py, not under src/) is passed as an opaque function
`interpolateFn`.  A raised `ValueError` is modelled as `Except.error`. -/
def process_embeddings {α : Type} (interpolate_pos : Bool)
    (max_length vocab_size n_special : Nat)
    (interpolateFn : List α → Nat → List α)
    (name : String) (value : List α) : Except String (List α) :=
  if containsSublist "/we:0".data name.data = false then .ok value
  else
    let word_embeddings := value.take (vocab_size - n_special)
    let special_embed :=
      (value.drop word_embeddings.length).take (vocab_size - word_embeddings.length)
    let positional_embed := value.drop vocab_size
    if interpolate_pos = true ∧ max_length ≠ positional_embed.length then
      .ok (word_embeddings ++ special_embed ++ interpolateFn positional_embed max_length)
    else if positional_embed.length < max_length then
      .error "Max Length cannot be greater than the saved positional embedding length if interpolate_pos_embed is turned off"
    else
      .ok (word_embeddings ++ special_embed ++ positional_embed.take max_length)

/-- Helper: the word-embedding slice `value[:vocab_size - n_special]`
concatenated with the special-token slice `value[len(word) : vocab_size]`
is exactly `value[:vocab_size]`. -/
theorem word_special_concat {α : Type} (value : List α) (vocab_size n_special : Nat)
    (_h : n_special ≤ vocab_size) :
    value.take (vocab_size - n_special) ++
      (value.drop ((value.take (vocab_size - n_special)).length)).take
        (vocab_size - (value.take (vocab_size - n_special)).length) =
      value.take vocab_size := by
  have ha : vocab_size - n_special ≤ vocab_size := Nat.sub_le _ _
  rw [List.length_take]
  rcases le_or_lt (vocab_size - n_special) value.length with hle | hlt
  · rw [Nat.min_eq_left hle]
    have h1 : (value.drop (vocab_size - n_special)).take
        (vocab_size - (vocab_size - n_special)) =
        (value.take vocab_size).drop (vocab_size - n_special) := by
      have hAB : vocab_size - n_special + (vocab_size - (vocab_size - n_special)) =
          vocab_size := by omega
      rw [List.take_drop, hAB]
    have h2 : value.take (vocab_size - n_special) =
        (value.take vocab_size).take (vocab_size - n_special) := by
      rw [List.take_take, Nat.min_eq_left ha]
    rw [h2, h1, List.take_append_drop]
  · rw [Nat.min_eq_right hlt.le, List.drop_length]
    rw [List.take_of_length_le hlt.le, List.take_of_length_le (hlt.le.trans ha)]
    simp

/-- C7: on an embedding-table variable (name containing `"/we:0"`), the
transform raises exactly when positional interpolation is disabled and
`max_length` exceeds the saved positional slice `value[vocab_size:]`
(never silently clamping); otherwise it reslices the table into word,
special-token and positional parts — `value[:vocab_size]` followed by the
positional slice — interpolating the positional slice to `max_length`
when interpolation is on and a resize is needed, and truncating it to
`max_length` otherwise. -/
theorem process_embeddings_spec {α : Type} (interpolate_pos : Bool)
    (max_length vocab_size n_special : Nat)
    (interpolateFn : List α → Nat → List α) (name : String) (value : List α)
    (hname : containsSublist "/we:0".data name.data = true)
    (hspec : n_special ≤ vocab_size) :
    ((∃ msg, process_embeddings interpolate_pos max_length vocab_size n_special
        interpolateFn name value = .error msg) ↔
      (interpolate_pos = false ∧ (value.drop vocab_size).length < max_length)) ∧
    (interpolate_pos = true → max_length ≠ (value.drop vocab_size).length →
      process_embeddings interpolate_pos max_length vocab_size n_special
          interpolateFn name value =
        .ok (value.take vocab_size ++ interpolateFn (value.drop vocab_size) max_length)) ∧
    (max_length ≤ (value.drop vocab_size).length →
      (interpolate_pos = false ∨ max_length = (value.drop vocab_size).length) →
      process_embeddings interpolate_pos max_length vocab_size n_special
          interpolateFn name value =
        .ok (value.take vocab_size ++ (value.drop vocab_size).take max_length)) := by
  have hws := word_special_concat value vocab_size n_special hspec
  have hfalse : ¬ containsSublist "/we:0".data name.data = false := by
    simp [hname]
  refine ⟨?_, ?_, ?_⟩
  · constructor
    · rintro ⟨msg, hmsg⟩
      unfold process_embeddings at hmsg
      rw [if_neg hfalse] at hmsg
      by_cases hi : interpolate_pos = true ∧ max_length ≠ (value.drop vocab_size).length
      · rw [if_pos hi] at hmsg
        exact Except.noConfusion hmsg
      · rw [if_neg hi] at hmsg
        by_cases hlt : (value.drop vocab_size).length < max_length
        · refine ⟨?_, hlt⟩
          rcases Bool.eq_false_or_eq_true interpolate_pos with ht | hf
          · exact absurd ⟨ht, by omega⟩ hi
          · exact hf
        · rw [if_neg hlt] at hmsg
          exact Except.noConfusion hmsg
    · rintro ⟨hoff, hlt⟩
      refine ⟨"Max Length cannot be greater than the saved positional embedding length if interpolate_pos_embed is turned off", ?_⟩
      unfold process_embeddings
      rw [if_neg hfalse, if_neg (by simp [hoff]), if_pos hlt]
  · intro ht hne
    unfold process_embeddings
    rw [if_neg hfalse, if_pos ⟨ht, by simpa using hne⟩]
    rw [show (value.take (vocab_size - n_special) ++
        (value.drop ((value.take (vocab_size - n_special)).length)).take
          (vocab_size - (value.take (vocab_size - n_special)).length)) ++
        interpolateFn (value.drop vocab_size) max_length =
        value.take vocab_size ++ interpolateFn (value.drop vocab_size) max_length
      from by rw [hws]]
  · intro hle hcase
    have hni : ¬ (interpolate_pos = true ∧ max_length ≠ (value.drop vocab_size).length) := by
      rcases hcase with hf | he
      · simp [hf]
      · simp [he]
    unfold process_embeddings
    rw [if_neg hfalse, if_neg hni, if_neg (by omega)]
    rw [show (value.take (vocab_size - n_special) ++
        (value.drop ((value.take (vocab_size - n_special)).length)).take
          (vocab_size - (value.take (vocab_size - n_special)).length)) ++
        (value.drop vocab_size).take max_length =
        value.take vocab_size ++ (value.drop vocab_size).take max_length
      from by rw [hws]]

/-- Witness for C7 at a concrete embedding table: 10 rows, vocabulary 4
with 1 special token, `max_length = 2`, interpolation off. -/
theorem process_embeddings_spec_witness :
    ((∃ msg, process_embeddings false 2 4 1
        (fun _ n => List.replicate n (0 : Nat)) "model/we:0" (List.range 10) =
          .error msg) ↔
      (false = false ∧ ((List.range 10).drop 4).length < 2)) ∧
    (false = true → 2 ≠ ((List.range 10).drop 4).length →
      process_embeddings false 2 4 1 (fun _ n => List.replicate n (0 : Nat))
          "model/we:0" (List.range 10) =
        .ok ((List.range 10).take 4 ++ List.replicate 2 0)) ∧
    (2 ≤ ((List.range 10).drop 4).length →
      (false = false ∨ 2 = ((List.range 10).drop 4).length) →
      process_embeddings false 2 4 1 (fun _ n => List.replicate n (0 : Nat))
          "model/we:0" (List.range 10) =
        .ok ((List.range 10).take 4 ++ ((List.range 10).drop 4).take 2)) :=
  process_embeddings_spec false 2 4 1 (fun _ n => List.replicate n (0 : Nat))
    "model/we:0" (List.range 10) (by decide) (by norm_num)

/-- Modelled from the spec: the byte-pair text encoder lives in
finetune/encoding.py, which is not under src/.  Per the spec's tokenizer
boundary and the sentence "fails if no seed text is given and extra tokens
are disabled", `ENCODER._encode([seed_text])` compares equal to the empty
list exactly when the seed text is empty; otherwise it yields one
non-empty token-id row, modelled here as the character codes of the
text. -/
def ENCODER_encode (seed_text : String) : List (List Nat) :=
  if seed_text = "" then [] else [seed_text.data.map Char.toNat]

/-- The pre-generation phase of `BaseModel.generate_text`
(src/finetune/base.py lines 326-331): encode the seed text, raise a
`ValueError` if the encoding is empty while extra tokens are disabled, and
otherwise seed the token sequence with the start token (when extra tokens
are enabled) followed by the encoded seed text — all before any generation
step runs. -/
def generate_text_setup (seed_text : String) (use_extra_toks : Bool)
    (start_token : Nat) : Except String (List Nat) :=
  let encoded := ENCODER_encode seed_text
  if encoded = [] ∧ use_extra_toks = false then
    .error "If you are not using the extra tokens, you must provide some non-empty seed text"
  else
    .ok ((if use_extra_toks then [start_token] else []) ++ encoded.headD [])

/-- C8: with extra tokens disabled, `generate_text` raises before any
generation step exactly on an empty seed text; a non-empty seed proceeds
to generation. -/
theorem generate_text_empty_seed (start_token : Nat) (seed_text : String) :
    (seed_text = "" →
      generate_text_setup seed_text false start_token =
        .error "If you are not using the extra tokens, you must provide some non-empty seed text") ∧
    (seed_text ≠ "" →
      ∃ toks, generate_text_setup seed_text false start_token = .ok toks) := by
  constructor
  · intro h
    subst h
    rfl
  · intro h
    refine ⟨seed_text.data.map Char.toNat, ?_⟩
    unfold generate_text_setup ENCODER_encode
    simp [h]

/-- Witness for C8: the empty seed raises; the seed `"a"` does not. -/
theorem generate_text_empty_seed_witness :
    generate_text_setup "" false 0 =
      .error "If you are not using the extra tokens, you must provide some non-empty seed text" ∧
    ∃ toks, generate_text_setup "a" false 0 = .ok toks :=
  ⟨(generate_text_empty_seed 0 "").1 rfl,
   (generate_text_empty_seed 0 "a").2 (by decide)⟩

/-- Python `itertools.product` over a list of candidate lists: one output
tuple per element of the Cartesian product, the rightmost factor varying
fastest. -/
def pyProduct {α : Type} : List (List α) → List (List α)
  | [] => [[]]
  | xs :: rest => xs.flatMap (fun x => (pyProduct rest).map (fun t => x :: t))

theorem pyProduct_length {α : Type} (grids : List (List α)) :
    (pyProduct grids).length = (grids.map List.length).prod := by
  induction grids with
  | nil => rfl
  | cons xs rest ih =>
    have h : ∀ (ys : List α) (l : List (List α)),
        (ys.flatMap (fun x => l.map (fun t => x :: t))).length =
          ys.length * l.length := by
      intro ys l
      induction ys with
      | nil => simp
      | cons y ys ihy =>
        simp only [List.flatMap_cons, List.length_append, List.length_map, ihy,
          List.length_cons]
        ring
    simp [pyProduct, h, ih]

/-- The trial loop of `BaseModel.finetune_grid_search` with
`return_all=True` (src/finetune/base.py lines 423-441): enumerate
`itertools.product` of the grid-searchable parameters' candidate lists; for
each combination build the trial configuration by updating a deep copy of
the base configuration (the pure value `config` here — deep-copying an
immutable value is the identity) with the keys zipped against the
combination, and record the `(config, score)` pair.  The externally
executed train/predict/eval cycle is the opaque function `evalScore` of the
trial configuration. -/
def finetune_grid_search_results {K V C S : Type} (grids : List (List V))
    (keys : List K) (config : C) (update : C → List (K × V) → C)
    (evalScore : C → S) : List (C × S) :=
  (pyProduct grids).map (fun grid_item =>
    let config' := update config (keys.zip grid_item)
    (config', evalScore config'))

/-- C9: `finetune_grid_search` with `return_all=True` returns exactly one
`(configuration, score)` pair per element of the Cartesian product of the
grid-searchable candidate lists, in the deterministic `itertools.product`
enumeration order (the k-th pair comes from the k-th product tuple, and
its configuration is derived from the base configuration alone); with two
searchable parameters of 3 and 2 candidates it returns exactly 6 pairs. -/
theorem finetune_grid_search_spec {K V C S : Type} (grids : List (List V))
    (keys : List K) (config : C) (update : C → List (K × V) → C)
    (evalScore : C → S) :
    (finetune_grid_search_results grids keys config update evalScore).length =
      (grids.map List.length).prod ∧
    (∀ k : Nat, (finetune_grid_search_results grids keys config update evalScore)[k]? =
      ((pyProduct grids)[k]?).map (fun grid_item =>
        (update config (keys.zip grid_item),
         evalScore (update config (keys.zip grid_item))))) ∧
    (∀ g1 g2 : List V, g1.length = 3 → g2.length = 2 →
      (finetune_grid_search_results [g1, g2] keys config update evalScore).length = 6) := by
  refine ⟨?_, ?_, ?_⟩
  · simp [finetune_grid_search_results, pyProduct_length]
  · intro k
    simp [finetune_grid_search_results, List.getElem?_map]
  · intro g1 g2 h1 h2
    simp [finetune_grid_search_results, pyProduct_length, h1, h2]

/-- Witness for C9: a 3-candidate and a 2-candidate parameter yield 6
result pairs. -/
theorem finetune_grid_search_spec_witness :
    (finetune_grid_search_results [[1, 2, 3], [9, 8]] ([10, 20] : List Nat) (0 : Nat)
        (fun c kv => c + (kv.map Prod.snd).sum) (fun c => c * 2)).length = 6 :=
  (finetune_grid_search_spec [[1, 2, 3], [9, 8]] [10, 20] 0
      (fun c kv => c + (kv.map Prod.snd).sum) (fun c => c * 2)).2.2
    [1, 2, 3] [9, 8] rfl rfl

/-- `BasePipeline._format_for_encoding` (src/finetune/input_pipeline.py
lines 154-164): every input `X` is wrapped as `[[X]]`. -/
def format_for_encoding {α : Type} (X : α) : List (List α) := [[X]]

/-- The branch condition of `BasePipeline._text_to_ids`
(src/finetune/input_pipeline.py line 168), evaluated after
`Xs = self._format_for_encoding(Xs)`:
`config.chunk_long_sequences and len(Xs) == 1`. -/
def text_to_ids_chunk_branch {α : Type} (chunk_long_sequences : Bool) (X : α) : Bool :=
  chunk_long_sequences && ((format_for_encoding X).length == 1)

/-- C10: `_format_for_encoding` wraps every input as `[[X]]`, a list of
length exactly 1, so the single-sequence condition `len(Xs) == 1` holds
unconditionally and the chunking branch of `_text_to_ids` is taken exactly
when `config.chunk_long_sequences` is set. -/
theorem format_for_encoding_spec {α : Type} (chunk_long_sequences : Bool) (X : α) :
    (format_for_encoding X).length = 1 ∧
    text_to_ids_chunk_branch chunk_long_sequences X = chunk_long_sequences := by
  constructor
  · rfl
  · simp [text_to_ids_chunk_branch, format_for_encoding]

end Finetune
